import Mathlib

/-!
# Library catalog manager (home.cpp): a shallow embedding

The program keeps a `std::vector<Book>` in memory, persists it to the text file
`books.txt` (four lines per record) and offers add / remove / borrow / return.

Modelling conventions
* a C++ `char` is a Lean `Char`; a `std::string` is a `String`; file contents
  are a `List Char`;
* a C++ `int` is an `Int` together with the range `INT_MIN .. INT_MAX`; the one
  arithmetic operation of the program (`books.back().id + 1`) is taken modulo
  `2^32` (two's complement wrap-around);
* `std::ifstream` is modelled by its unread characters and its `eofbit` /
  `failbit`, with the formatted and unformatted extractors the program calls;
* the network transfer and `json::parse` are the environment: their outcome is
  an input of `addBookFromAPI`;
* an exception that nothing catches ends the operation with `Except.error`.
-/

namespace LibraryManagement

/-! ## Data model -/

/-- Largest value of a 32-bit `int`. -/
def INT_MAX : Int := 2147483647

/-- Smallest value of a 32-bit `int`. -/
def INT_MIN : Int := -2147483648

/-- Largest value of a 64-bit `long`. -/
def LONG_MAX : Int := 9223372036854775807

/-- Smallest value of a 64-bit `long`. -/
def LONG_MIN : Int := -9223372036854775808

/-- The record `struct Book`. -/
structure Book where
  id : Int
  title : String
  author : String
  isBorrowed : Bool
deriving DecidableEq, Repr

/-- The default constructor `Book() : id(0), isBorrowed(false)`. -/
def Book.default : Book := ⟨0, "", "", false⟩

/-- The constructor `Book(int id, const std::string& title, const std::string& author)`. -/
def Book.create (id : Int) (title author : String) : Book := ⟨id, title, author, false⟩

/-- The state the program acts on: the member `books`, the contents of `books.txt`
(`none` when the file does not exist), the texts written to `std::cout` in order,
and the number of times `books.txt` has been truncated and rewritten. -/
structure Library where
  books : List Book
  file : Option (List Char)
  out : List String
  saves : Nat
deriving DecidableEq, Repr

/-! ## Output formatting (`std::ofstream`) -/

/-- The text `file << n` writes for an `int`: decimal digits, with a leading minus sign
for a negative value. -/
def putInt (n : Int) : List Char := (toString n).data

/-- The text `file << b` writes for a `bool` (no `boolalpha`): `1` or `0`. -/
def putBool (b : Bool) : List Char := if b then ['1'] else ['0']

/-- The four lines one iteration of the loop in `saveBooks` writes. -/
def putBook (book : Book) : List Char :=
  putInt book.id ++ ['\n'] ++ book.title.data ++ ['\n'] ++ book.author.data ++ ['\n']
    ++ putBool book.isBorrowed ++ ['\n']

/-- The loop `for (const auto& book : books) file << ...` of `saveBooks`. -/
def writeBooks : List Book → List Char
  | [] => []
  | book :: rest => putBook book ++ writeBooks rest

/-- The method `Library::saveBooks`: opens `books.txt` for writing (which creates or
truncates it) and writes every record. -/
def saveBooks (L : Library) : Library :=
  { L with file := some (writeBooks L.books), saves := L.saves + 1 }

/-! ## Input (`std::ifstream`) -/

/-- An input stream: the characters not yet read and two of the state bits. -/
structure IStream where
  buf : List Char
  eofbit : Bool
  failbit : Bool
deriving DecidableEq, Repr

/-- The stream test `good()`. -/
def IStream.good (s : IStream) : Bool := !s.eofbit && !s.failbit

/-- The classification `isspace` in the "C" locale. -/
def isspace (c : Char) : Bool :=
  c == ' ' || c == '\t' || c == '\n' || c == '\x0b' || c == '\x0c' || c == '\r'

/-- The `istream::sentry`: fails (setting `failbit`) on a stream that is not good;
otherwise, unless `noskipws`, skips leading white space, and fails with
`eofbit | failbit` when that reaches the end of the input. -/
def sentry (s : IStream) (noskipws : Bool) : IStream × Bool :=
  if !s.good then ({ s with failbit := true }, false)
  else if noskipws then (s, true)
  else
    let rest := s.buf.dropWhile isspace
    if rest.isEmpty then ({ buf := [], eofbit := true, failbit := true }, false)
    else ({ s with buf := rest }, true)

/-- Value of a run of decimal digits. -/
def digitsValue (ds : List Char) : Nat :=
  ds.foldl (fun acc c => acc * 10 + (c.toNat - 48)) 0

/-- The facet `num_get` for a signed integer type with range `lo .. hi` in base 10:
an optional sign, then all the decimal digits that follow. No digit: the value is 0
and `failbit` is set. Out of range: the value is the nearest bound and `failbit` is
set. Reaching the end of the input sets `eofbit`. -/
def num_get (lo hi : Int) (s : IStream) : IStream × Int :=
  let neg := s.buf.head? == some '-'
  let body := match s.buf with
    | '-' :: r => r
    | '+' :: r => r
    | r => r
  let ds := body.takeWhile Char.isDigit
  let rest := body.dropWhile Char.isDigit
  let s1 : IStream := { buf := rest, eofbit := s.eofbit || rest.isEmpty, failbit := s.failbit }
  if ds.isEmpty then ({ s1 with failbit := true }, 0)
  else
    let v : Int := if neg then -(digitsValue ds : Int) else (digitsValue ds : Int)
    if v < lo then ({ s1 with failbit := true }, lo)
    else if hi < v then ({ s1 with failbit := true }, hi)
    else (s1, v)

/-- The extractor `file >> n` for an `int`; `old` is the value of the variable before the call,
which a failed sentry leaves in place. -/
def extractInt (s : IStream) (old : Int) : IStream × Int :=
  match sentry s false with
  | (s1, false) => (s1, old)
  | (s1, true) => num_get INT_MIN INT_MAX s1

/-- The extractor `file >> b` for a `bool` (no `boolalpha`): the text is read as a `long`;
0 gives false, 1 gives true, anything else gives true with `failbit`. -/
def extractBool (s : IStream) (old : Bool) : IStream × Bool :=
  match sentry s false with
  | (s1, false) => (s1, old)
  | (s1, true) =>
    let r := num_get LONG_MIN LONG_MAX s1
    if r.2 = 0 then (r.1, false)
    else if r.2 = 1 then (r.1, true)
    else ({ r.1 with failbit := true }, true)

/-- The call `file.ignore()`: discards one character; `eofbit` when there is none. -/
def ignore (s : IStream) : IStream :=
  match sentry s true with
  | (s1, false) => s1
  | (s1, true) =>
    match s1.buf with
    | [] => { s1 with eofbit := true }
    | _ :: r => { s1 with buf := r }

/-- The call `std::getline(file, str)`: the characters up to the next newline, which is
consumed and not stored. At the end of the input `eofbit` is set, and `failbit` too when
nothing at all was extracted. A failed sentry leaves `str` (here `old`) as it was. -/
def getline (s : IStream) (old : String) : IStream × String :=
  match sentry s true with
  | (s1, false) => (s1, old)
  | (s1, true) =>
    let line := s1.buf.takeWhile (fun c => c != '\n')
    match s1.buf.dropWhile (fun c => c != '\n') with
    | [] => ({ buf := [], eofbit := true, failbit := s1.failbit || line.isEmpty }, String.mk line)
    | _ :: r => ({ s1 with buf := r }, String.mk line)

/-- The loop `while (file >> book.id) ...` of `loadBooks`. `book` is the loop's one
`Book` variable, which keeps its fields from one iteration to the next; `books` is the
vector being filled. An iteration that does not stop consumes at least one character, so
`fuel` larger than the length of the input is never used up. -/
def loadLoop : Nat → IStream → Book → List Book → List Book
  | 0, _, _, books => books
  | fuel + 1, file, book, books =>
    let r1 := extractInt file book.id
    if r1.1.failbit then books
    else
      let f2 := ignore r1.1
      let r3 := getline f2 book.title
      let r4 := getline r3.1 book.author
      let r5 := extractBool r4.1 book.isBorrowed
      let book1 : Book := ⟨r1.2, r3.2, r4.2, r5.2⟩
      loadLoop fuel r5.1 book1 (books ++ [book1])

/-- The method `Library::loadBooks`: when `books.txt` can be opened, appends the records
read from it to `books`. -/
def loadBooks (L : Library) : Library :=
  match L.file with
  | none => L
  | some content =>
    { L with books := loadLoop (content.length + 1) ⟨content, false, false⟩ Book.default L.books }

/-- The constructor `Library()`: calls `loadBooks` on an empty vector. `file` is the
contents of `books.txt` when the program starts. -/
def Library.create (file : Option (List Char)) : Library :=
  loadBooks { books := [], file := file, out := [], saves := 0 }

/-! ## The remote search and its JSON answer -/

/-- A JSON value as `nlohmann::json` holds it. An object lists its members in the order
in which iteration visits them; numbers are kept as integers (the program never looks
at one). -/
inductive Json where
  | null : Json
  | boolean (b : Bool) : Json
  | number (n : Int) : Json
  | string (s : String) : Json
  | array (elements : List Json) : Json
  | object (members : List (String × Json)) : Json

/-- What ends an operation early: an exception nothing in the program catches, or a
failed assertion of the JSON library. -/
inductive Abort where
  /-- The exception `json::parse_error`: the response body is not JSON. -/
  | parse_error : Abort
  /-- The exception `json::type_error`: subscript or `get` on a value of the wrong kind. -/
  | type_error : Abort
  /-- A `const` subscript with a key or index the value does not have (the library
  asserts this; behaviour is undefined without assertions). -/
  | missing : Abort
deriving DecidableEq, Repr

/-- What the environment does with one search request. -/
inductive Fetched where
  /-- No handle from `curl_easy_init`, or `curl_easy_perform` did not return `CURLE_OK`. -/
  | transferFailed : Fetched
  /-- The transfer succeeded and `json::parse` throws on the body. -/
  | unparsable : Fetched
  /-- The transfer succeeded and `json::parse` returns this value. -/
  | parsed (bookData : Json) : Fetched

/-- The method `Library::fetchBookData`: `json::parse(readBuffer)` after a successful
transfer, `nullptr` otherwise. There is no `try` around the parse. -/
def fetchBookData (response : Fetched) : Except Abort Json :=
  match response with
  | Fetched.transferFailed => Except.ok Json.null
  | Fetched.unparsable => Except.error Abort.parse_error
  | Fetched.parsed bookData => Except.ok bookData

/-- The test `is_null()`. -/
def Json.is_null : Json → Bool
  | Json.null => true
  | _ => false

/-- The subscript `j[key]` on a non-const value: a null value becomes an object, a key
that is absent is inserted with value null; a value of another kind throws. -/
def Json.subscript (j : Json) (key : String) : Except Abort Json :=
  match j with
  | Json.null => Except.ok Json.null
  | Json.object members =>
    match members.lookup key with
    | some v => Except.ok v
    | none => Except.ok Json.null
  | _ => Except.error Abort.type_error

/-- The values a range-based `for` visits: the elements of an array, the member values
of an object, nothing for null, the value itself for any other kind. -/
def Json.range (j : Json) : List Json :=
  match j with
  | Json.null => []
  | Json.array elements => elements
  | Json.object members => members.map Prod.snd
  | other => [other]

/-- The subscript `j[key]` on a const value: the member must exist. -/
def Json.atKey (j : Json) (key : String) : Except Abort Json :=
  match j with
  | Json.object members =>
    match members.lookup key with
    | some v => Except.ok v
    | none => Except.error Abort.missing
  | _ => Except.error Abort.type_error

/-- The subscript `j[idx]` on a const value: the element must exist. -/
def Json.atIndex (j : Json) (idx : Nat) : Except Abort Json :=
  match j with
  | Json.array elements =>
    match elements.get? idx with
    | some v => Except.ok v
    | none => Except.error Abort.missing
  | _ => Except.error Abort.type_error

/-- The conversion `get<std::string>()`. -/
def Json.get_string (j : Json) : Except Abort String :=
  match j with
  | Json.string s => Except.ok s
  | _ => Except.error Abort.type_error

/-! ## Catalog operations -/

/-- Two's complement wrap-around of a 32-bit `int` result. -/
def wrapInt (x : Int) : Int := (x + 2147483648) % 4294967296 - 2147483648

/-- The expression `books.empty() ? 1 : books.back().id + 1`. -/
def nextId (books : List Book) : Int :=
  match books.getLast? with
  | none => 1
  | some last => wrapInt (last.id + 1)

/-- The two extractions of the loop body of `addBookFromAPI`, in the order of the source:
`item["volumeInfo"]["title"]` and `item["volumeInfo"]["authors"][0]`, each as a string. -/
def candidateOf (item : Json) : Except Abort (String × String) :=
  match item.atKey "volumeInfo" with
  | Except.error e => Except.error e
  | Except.ok info =>
    match info.atKey "title" with
    | Except.error e => Except.error e
    | Except.ok t =>
      match t.get_string with
      | Except.error e => Except.error e
      | Except.ok title =>
        match item.atKey "volumeInfo" with
        | Except.error e => Except.error e
        | Except.ok info2 =>
          match info2.atKey "authors" with
          | Except.error e => Except.error e
          | Except.ok authors =>
            match authors.atIndex 0 with
            | Except.error e => Except.error e
            | Except.ok a =>
              match a.get_string with
              | Except.error e => Except.error e
              | Except.ok author => Except.ok (title, author)

/-- The statement `books.push_back(Book(id, title, author))` with the id the loop body
computed from the vector as it then stands. -/
def pushCandidate (books : List Book) (c : String × String) : List Book :=
  books ++ [Book.create (nextId books) c.1 c.2]

/-- The loop `for (const auto& item : bookData["items"])` of `addBookFromAPI`: an exception
in the body leaves the loop and the method. -/
def addLoop : List Json → List Book → Except Abort (List Book)
  | [], books => Except.ok books
  | item :: rest, books =>
    match candidateOf item with
    | Except.error e => Except.error e
    | Except.ok c => addLoop rest (pushCandidate books c)

/-- The method `Library::addBookFromAPI`, given what the environment answers to the
request. -/
def addBookFromAPI (L : Library) (response : Fetched) : Except Abort Library :=
  match fetchBookData response with
  | Except.error e => Except.error e
  | Except.ok bookData =>
    if !bookData.is_null then
      match bookData.subscript "items" with
      | Except.error e => Except.error e
      | Except.ok items =>
        match addLoop items.range L.books with
        | Except.error e => Except.error e
        | Except.ok books => Except.ok (saveBooks { L with books := books })
    else Except.ok { L with out := L.out ++ ["No books found.\n"] }

/-- The algorithm `std::remove_if` followed by `erase` of the tail: the elements that do not
satisfy the predicate, in their order. -/
def remove_if (p : Book → Bool) : List Book → List Book
  | [] => []
  | book :: rest => if p book then remove_if p rest else book :: remove_if p rest

/-- The method `Library::removeBook`. -/
def removeBook (L : Library) (bookId : Int) : Library :=
  saveBooks { L with books := remove_if (fun book => book.id == bookId) L.books }

/-- The loop of `borrowBook`: the vector after the first record with the id and
`!isBorrowed` has been flagged, or `none` when the loop runs to its end. -/
def borrowLoop (bookId : Int) : List Book → Option (List Book)
  | [] => none
  | book :: rest =>
    if book.id == bookId && !book.isBorrowed then
      some ({ book with isBorrowed := true } :: rest)
    else (borrowLoop bookId rest).map (fun books => book :: books)

/-- The method `Library::borrowBook`. -/
def borrowBook (L : Library) (bookId : Int) : Library :=
  match borrowLoop bookId L.books with
  | some books => saveBooks { L with books := books }
  | none => { L with out := L.out ++ ["Book not available for borrowing.\n"] }

/-- The loop of `returnBook`: the vector after the first record with the id and
`isBorrowed` has been unflagged, or `none` when the loop runs to its end. -/
def returnLoop (bookId : Int) : List Book → Option (List Book)
  | [] => none
  | book :: rest =>
    if book.id == bookId && book.isBorrowed then
      some ({ book with isBorrowed := false } :: rest)
    else (returnLoop bookId rest).map (fun books => book :: books)

/-- The method `Library::returnBook`. -/
def returnBook (L : Library) (bookId : Int) : Library :=
  match returnLoop bookId L.books with
  | some books => saveBooks { L with books := books }
  | none => { L with out := L.out ++ ["Book not found or not borrowed.\n"] }

/-- The method `Library::countBooks`. -/
def countBooks (L : Library) : Nat := L.books.length

/-! ## Vocabulary of the properties -/

/-- The id of the last record, 0 for the empty catalog. -/
def lastId (books : List Book) : Int :=
  match books.getLast? with
  | none => 0
  | some last => last.id

/-- The largest id in the catalog, 0 for the empty catalog. -/
def maxId : List Book → Int
  | [] => 0
  | book :: rest => if rest.isEmpty then book.id else max book.id (maxId rest)

/-- Every id of the catalog is a value of type `int`. -/
def IdsInRange (books : List Book) : Prop :=
  ∀ book ∈ books, INT_MIN ≤ book.id ∧ book.id ≤ INT_MAX

instance (books : List Book) : Decidable (IdsInRange books) :=
  inferInstanceAs (Decidable (∀ book ∈ books, INT_MIN ≤ book.id ∧ book.id ≤ INT_MAX))

/-- The search answered `bookData`, and the loop of `addBookFromAPI` finds in it, in order,
exactly the candidates `cands` (title, first author). -/
def SearchYields (bookData : Json) (cands : List (String × String)) : Prop :=
  bookData.is_null = false ∧
  ∃ items, bookData.subscript "items" = Except.ok items ∧
    List.Forall₂ (fun item c => candidateOf item = Except.ok c) items.range cands

/-- One volume of a search answer, with the fields the program reads. -/
def volume (title : String) (authors : List String) : Json :=
  Json.object [("kind", Json.string "books#volume"),
    ("volumeInfo", Json.object [("title", Json.string title),
      ("authors", Json.array (authors.map Json.string))])]

/-- A search answer listing the given volumes under `items`. -/
def searchResponse (volumes : List Json) : Json :=
  Json.object [("kind", Json.string "books#volumes"),
    ("totalItems", Json.number volumes.length), ("items", Json.array volumes)]

/-- The catalogs the operations can produce from an empty catalog, as long as no id
computation of `addBookFromAPI` leaves the range of `int`. -/
inductive Reachable : Library → Prop where
  | start (L : Library) : L.books = [] → Reachable L
  | add (L L1 : Library) (response : Fetched) : Reachable L →
      addBookFromAPI L response = Except.ok L1 →
      lastId L.books + ((L1.books.length - L.books.length : Nat) : Int) ≤ INT_MAX →
      Reachable L1
  | remove (L : Library) (bookId : Int) : Reachable L → Reachable (removeBook L bookId)
  | borrow (L : Library) (bookId : Int) : Reachable L → Reachable (borrowBook L bookId)
  | giveBack (L : Library) (bookId : Int) : Reachable L → Reachable (returnBook L bookId)

/-- A text without a newline character. -/
def OneLine (s : String) : Prop := '\n' ∉ s.data

instance (s : String) : Decidable (OneLine s) :=
  inferInstanceAs (Decidable ('\n' ∉ s.data))

/-- A record that `books.txt` can hold faithfully: the id is an `int` and neither text field
contains a newline. -/
def Storable (book : Book) : Prop :=
  INT_MIN ≤ book.id ∧ book.id ≤ INT_MAX ∧ OneLine book.title ∧ OneLine book.author

instance (book : Book) : Decidable (Storable book) :=
  inferInstanceAs
    (Decidable (INT_MIN ≤ book.id ∧ book.id ≤ INT_MAX ∧ OneLine book.title ∧ OneLine book.author))

/-- The id invariant: ids pairwise distinct and non-decreasing in catalog order. -/
def IdInvariant (books : List Book) : Prop :=
  (books.map Book.id).Nodup ∧ (books.map Book.id).Sorted (fun a b => a ≤ b)

instance (books : List Book) : Decidable (IdInvariant books) :=
  inferInstanceAs (Decidable
    ((books.map Book.id).Nodup ∧ (books.map Book.id).Sorted (fun a b => a ≤ b)))

/-! ## Persisted format: `loadBooks` after `saveBooks` -/

theorem digitChar_spec : ∀ d, d < 10 →
    (Nat.digitChar d).isDigit = true ∧ (Nat.digitChar d).toNat - 48 = d := by
  decide

theorem digitsValue_snoc (ds : List Char) (c : Char) :
    digitsValue (ds ++ [c]) = digitsValue ds * 10 + (c.toNat - 48) := by
  simp [digitsValue, List.foldl_append]

theorem toDigitsCore_spec : ∀ (fuel n : Nat) (acc : List Char), n < fuel →
    ∃ pre, Nat.toDigitsCore 10 fuel n acc = pre ++ acc ∧ pre ≠ [] ∧
      (∀ c ∈ pre, c.isDigit = true) ∧ digitsValue pre = n := by
  intro fuel
  induction fuel with
  | zero => intro n acc h; omega
  | succ fuel ih =>
    intro n acc h
    rw [Nat.toDigitsCore]
    have hd := digitChar_spec (n % 10) (Nat.mod_lt _ (by norm_num))
    by_cases h0 : n / 10 = 0
    · refine ⟨[Nat.digitChar (n % 10)], by simp [h0], by simp, by simpa using hd.1, ?_⟩
      have hn : n % 10 = n := by omega
      simp only [digitsValue, List.foldl, hd.2]
      omega
    · obtain ⟨pre, hpre, hne, hdig, hval⟩ :=
        ih (n / 10) (Nat.digitChar (n % 10) :: acc) (by omega)
      refine ⟨pre ++ [Nat.digitChar (n % 10)], by simp [h0, hpre], by simp, ?_, ?_⟩
      · intro c hc
        rcases List.mem_append.1 hc with hc | hc
        · exact hdig c hc
        · simp at hc; subst hc; exact hd.1
      · rw [digitsValue_snoc, hval, hd.2]; omega

theorem natRepr_spec (n : Nat) :
    ∃ ds, (toString n).data = ds ∧ ds ≠ [] ∧ (∀ c ∈ ds, c.isDigit = true) ∧
      digitsValue ds = n := by
  obtain ⟨pre, hpre, hne, hdig, hval⟩ := toDigitsCore_spec (n + 1) n [] (by omega)
  refine ⟨pre, ?_, hne, hdig, hval⟩
  show (Nat.repr n).data = pre
  simp [Nat.repr, Nat.toDigits, hpre, List.asString]

theorem putInt_spec (n : Int) :
    ∃ ds, ds ≠ [] ∧ (∀ c ∈ ds, c.isDigit = true) ∧
      ((0 ≤ n ∧ putInt n = ds ∧ (digitsValue ds : Int) = n) ∨
       (n < 0 ∧ putInt n = '-' :: ds ∧ -(digitsValue ds : Int) = n)) := by
  cases n with
  | ofNat m =>
    obtain ⟨ds, hds, hne, hdig, hval⟩ := natRepr_spec m
    refine ⟨ds, hne, hdig, Or.inl ⟨Int.ofNat_nonneg m, ?_, ?_⟩⟩
    · exact hds
    · simp [hval]
  | negSucc m =>
    obtain ⟨ds, hds, hne, hdig, hval⟩ := natRepr_spec (m + 1)
    refine ⟨ds, hne, hdig, Or.inr ⟨Int.negSucc_lt_zero m, ?_, ?_⟩⟩
    · show ("-" ++ toString (m + 1)).data = '-' :: ds
      rw [String.data_append, hds]; rfl
    · rw [hval]; rfl

theorem isDigit_not_sign (c : Char) (h : c.isDigit = true) : c ≠ '-' ∧ c ≠ '+' := by
  constructor <;> (rintro rfl; revert h; decide)

theorem scan_digits (ds rest : List Char) (hdig : ∀ c ∈ ds, c.isDigit = true) :
    (ds ++ '\n' :: rest).takeWhile Char.isDigit = ds ∧
    (ds ++ '\n' :: rest).dropWhile Char.isDigit = '\n' :: rest := by
  constructor
  · rw [List.takeWhile_append_of_pos hdig]
    simp [List.takeWhile, show Char.isDigit '\n' = false by decide]
  · rw [List.dropWhile_append_of_pos hdig]
    simp [List.dropWhile, show Char.isDigit '\n' = false by decide]

theorem num_get_putInt (lo hi n : Int) (hlo : lo ≤ n) (hhi : n ≤ hi) (rest : List Char) :
    num_get lo hi ⟨putInt n ++ '\n' :: rest, false, false⟩ = (⟨'\n' :: rest, false, false⟩, n) := by
  obtain ⟨ds, hne, hdig, h | h⟩ := putInt_spec n
  · obtain ⟨h0, hput, hval⟩ := h
    obtain ⟨c, ds1, rfl⟩ := List.exists_cons_of_ne_nil hne
    have hc := isDigit_not_sign c (hdig c (by simp))
    have hscan := scan_digits (c :: ds1) rest hdig
    rw [hput]
    unfold num_get
    simp only [List.cons_append] at hscan ⊢
    have hbody : (match c :: (ds1 ++ '\n' :: rest) with
        | '-' :: r => r
        | '+' :: r => r
        | r => r) = c :: (ds1 ++ '\n' :: rest) := by
      split
      · rename_i heq; simp at heq; exact absurd heq.1 hc.1
      · rename_i heq; simp at heq; exact absurd heq.1 hc.2
      · rfl
    simp only [hbody, hscan.1, hscan.2]
    have hneg : ((c :: (ds1 ++ '\n' :: rest)).head? == some '-') = false := by
      simp [hc.1]
    simp only [hneg]
    simp [hval, not_lt.2 hlo, not_lt.2 hhi]
  · obtain ⟨h0, hput, hval⟩ := h
    have hscan := scan_digits ds rest hdig
    obtain ⟨c, ds1, rfl⟩ := List.exists_cons_of_ne_nil hne
    rw [hput]
    unfold num_get
    simp only [List.cons_append] at hscan ⊢
    simp only [hscan.1, hscan.2]
    simp [hval, not_lt.2 hlo, not_lt.2 hhi]

theorem isDigit_not_space (c : Char) (h : c.isDigit = true) : isspace c = false := by
  simp only [isspace, Bool.or_eq_false_iff, beq_eq_false_iff_ne, ne_eq]
  refine ⟨⟨⟨⟨⟨?_, ?_⟩, ?_⟩, ?_⟩, ?_⟩, ?_⟩ <;> (rintro rfl; revert h; decide)

theorem putInt_head (n : Int) : ∃ c r, putInt n = c :: r ∧ isspace c = false := by
  obtain ⟨ds, hne, hdig, h | h⟩ := putInt_spec n
  · obtain ⟨c, ds1, rfl⟩ := List.exists_cons_of_ne_nil hne
    exact ⟨c, ds1, h.2.1, isDigit_not_space c (hdig c (by simp))⟩
  · exact ⟨'-', ds, h.2.1, by decide⟩

theorem sentry_skip (pre : List Char) (hpre : pre = [] ∨ pre = ['\n']) (c : Char) (r : List Char)
    (hc : isspace c = false) :
    sentry ⟨pre ++ c :: r, false, false⟩ false = (⟨c :: r, false, false⟩, true) := by
  rcases hpre with rfl | rfl
  · simp [sentry, IStream.good, List.dropWhile, hc]
  · simp [sentry, IStream.good, List.dropWhile, hc, show isspace '\n' = true by decide]

theorem extractInt_putInt (pre : List Char) (hpre : pre = [] ∨ pre = ['\n']) (n old : Int)
    (hlo : INT_MIN ≤ n) (hhi : n ≤ INT_MAX) (rest : List Char) :
    extractInt ⟨pre ++ (putInt n ++ '\n' :: rest), false, false⟩ old
      = (⟨'\n' :: rest, false, false⟩, n) := by
  obtain ⟨c, r, hcr, hc⟩ := putInt_head n
  have hs := sentry_skip pre hpre c (r ++ '\n' :: rest) hc
  have hn := num_get_putInt INT_MIN INT_MAX n hlo hhi rest
  rw [hcr] at hn ⊢
  simp only [List.cons_append] at hn hs ⊢
  simp only [extractInt, hs, hn]

theorem ignore_newline (rest : List Char) :
    ignore ⟨'\n' :: rest, false, false⟩ = ⟨rest, false, false⟩ := rfl

theorem getline_line (t rest : List Char) (old : String) (ht : '\n' ∉ t) :
    getline ⟨t ++ '\n' :: rest, false, false⟩ old = (⟨rest, false, false⟩, String.mk t) := by
  have hall : ∀ c ∈ t, (fun c => c != '\n') c = true := by
    intro c hc
    simp only [bne_iff_ne, ne_eq]
    rintro rfl
    exact ht hc
  have h1 : (t ++ '\n' :: rest).takeWhile (fun c => c != '\n') = t := by
    rw [List.takeWhile_append_of_pos hall]; simp [List.takeWhile]
  have h2 : (t ++ '\n' :: rest).dropWhile (fun c => c != '\n') = '\n' :: rest := by
    rw [List.dropWhile_append_of_pos hall]; simp [List.dropWhile]
  simp only [getline, sentry, IStream.good]
  simp [h1, h2]

theorem extractBool_putBool (b old : Bool) (rest : List Char) :
    extractBool ⟨putBool b ++ '\n' :: rest, false, false⟩ old
      = (⟨'\n' :: rest, false, false⟩, b) := by
  cases b <;> rfl

theorem putBook_eq (b : Book) (rest : List Char) :
    putBook b ++ rest = putInt b.id ++ '\n' :: (b.title.data ++ '\n' :: (b.author.data ++ '\n' ::
      (putBool b.isBorrowed ++ '\n' :: rest))) := by
  simp [putBook]

theorem loadLoop_step (fuel : Nat) (pre : List Char) (hpre : pre = [] ∨ pre = ['\n'])
    (b stale : Book) (hb : Storable b) (rest : List Char) (acc : List Book) :
    loadLoop (fuel + 1) ⟨pre ++ (putBook b ++ rest), false, false⟩ stale acc
      = loadLoop fuel ⟨'\n' :: rest, false, false⟩ b (acc ++ [b]) := by
  obtain ⟨hlo, hhi, ht, ha⟩ := hb
  rw [putBook_eq, loadLoop]
  simp only [extractInt_putInt pre hpre b.id stale.id hlo hhi, ignore_newline,
    getline_line _ _ _ ht, getline_line _ _ _ ha, extractBool_putBool]
  simp

theorem loadLoop_writeBooks : ∀ (bs : List Book) (fuel : Nat) (pre : List Char)
    (stale : Book) (acc : List Book), (pre = [] ∨ pre = ['\n']) → bs.length < fuel →
    (∀ b ∈ bs, Storable b) →
    loadLoop fuel ⟨pre ++ writeBooks bs, false, false⟩ stale acc = acc ++ bs := by
  intro bs
  induction bs with
  | nil =>
    intro fuel pre stale acc hpre hfuel _
    obtain ⟨f, rfl⟩ : ∃ f, fuel = f + 1 := ⟨fuel - 1, by simp at hfuel; omega⟩
    rcases hpre with rfl | rfl <;> simp [writeBooks, loadLoop, extractInt, sentry, IStream.good,
      List.dropWhile, show isspace '\n' = true by decide]
  | cons b bs ih =>
    intro fuel pre stale acc hpre hfuel hall
    obtain ⟨f, rfl⟩ : ∃ f, fuel = f + 1 := ⟨fuel - 1, by simp at hfuel; omega⟩
    rw [writeBooks, loadLoop_step f pre hpre b stale (hall b (by simp))]
    have := ih f ['\n'] b (acc ++ [b]) (Or.inr rfl) (by simpa using hfuel)
      (fun x hx => hall x (by simp [hx]))
    simpa using this

theorem length_le_writeBooks (bs : List Book) : bs.length ≤ (writeBooks bs).length := by
  induction bs with
  | nil => simp
  | cons b bs ih => simp [writeBooks, putBook]; omega

/-- C1. Round trip of the persisted format: for every catalog whose ids are `int` values and
whose titles and authors contain no newline, `loadBooks` run on an empty catalog over the
text `saveBooks` wrote returns exactly the saved records, in order. -/
theorem load_save_roundtrip (L : Library) (h : ∀ b ∈ L.books, Storable b) :
    (loadBooks { saveBooks L with books := [] }).books = L.books := by
  have := loadLoop_writeBooks L.books ((writeBooks L.books).length + 1) [] Book.default []
    (Or.inl rfl) (Nat.lt_succ_of_le (length_le_writeBooks L.books)) h
  simpa [loadBooks, saveBooks] using this

/-- Witness for C1: a catalog with an empty author, a title with leading and trailing
spaces and a negative id. -/
theorem load_save_roundtrip_witness :
    (loadBooks { saveBooks ⟨[⟨1, "A", "X", false⟩, ⟨-22, " a b ", "", true⟩], none, [], 0⟩
        with books := [] }).books
      = [⟨1, "A", "X", false⟩, ⟨-22, " a b ", "", true⟩] :=
  load_save_roundtrip ⟨[⟨1, "A", "X", false⟩, ⟨-22, " a b ", "", true⟩], none, [], 0⟩
    (by decide)

/-! ## The fuel of `loadLoop` is never used up -/

theorem num_get_body_length (buf : List Char) :
    (match buf with
      | '-' :: r => r
      | '+' :: r => r
      | r => r).length ≤ buf.length := by
  split <;> simp

theorem takeWhile_dropWhile_length (p : Char → Bool) (l : List Char) :
    (l.takeWhile p).length + (l.dropWhile p).length = l.length := by
  rw [← List.length_append, List.takeWhile_append_dropWhile]

theorem num_get_buf (lo hi : Int) (s : IStream) :
    (num_get lo hi s).1.buf = List.dropWhile Char.isDigit
      (match s.buf with
        | '-' :: r => r
        | '+' :: r => r
        | r => r) := by
  unfold num_get
  simp only
  split_ifs <;> rfl

theorem num_get_failbit (lo hi : Int) (s : IStream)
    (h : (List.takeWhile Char.isDigit
      (match s.buf with
        | '-' :: r => r
        | '+' :: r => r
        | r => r)).isEmpty = true) : (num_get lo hi s).1.failbit = true := by
  unfold num_get
  simp only [h, if_true]

theorem num_get_shrinks (lo hi : Int) (s : IStream) :
    (num_get lo hi s).1.buf.length ≤ s.buf.length ∧
    ((num_get lo hi s).1.failbit = false → (num_get lo hi s).1.buf.length < s.buf.length) := by
  have hbody := num_get_body_length s.buf
  have hlen := takeWhile_dropWhile_length Char.isDigit
    (match s.buf with
      | '-' :: r => r
      | '+' :: r => r
      | r => r)
  rw [num_get_buf]
  constructor
  · omega
  · intro hfail
    have hpos : 0 < (List.takeWhile Char.isDigit
        (match s.buf with
          | '-' :: r => r
          | '+' :: r => r
          | r => r)).length := by
      apply List.length_pos.2
      intro h
      have := num_get_failbit lo hi s (by simp [h])
      rw [this] at hfail
      exact absurd hfail (by simp)
    omega

theorem sentry_shrinks (s : IStream) (noskipws : Bool) :
    (sentry s noskipws).1.buf.length ≤ s.buf.length ∧
    ((sentry s noskipws).2 = false → (sentry s noskipws).1.failbit = true) := by
  unfold sentry
  split
  · simp
  · split
    · simp
    · have := takeWhile_dropWhile_length isspace s.buf
      simp only
      split
      · simp
      · simp only [Bool.true_eq_false, false_implies, and_true]; omega

theorem extractInt_shrinks (s : IStream) (old : Int) :
    (extractInt s old).1.failbit = false →
      (extractInt s old).1.buf.length < s.buf.length := by
  have hs := sentry_shrinks s false
  unfold extractInt
  split
  · rename_i s1 heq
    rw [heq] at hs
    intro h
    simp only at h
    have := hs.2 rfl
    simp only at this
    rw [this] at h
    exact absurd h (by simp)
  · rename_i s1 heq
    rw [heq] at hs
    intro h
    have := (num_get_shrinks INT_MIN INT_MAX s1).2 h
    have := hs.1
    simp only at this
    omega

theorem extractBool_shrinks (s : IStream) (old : Bool) :
    (extractBool s old).1.buf.length ≤ s.buf.length := by
  have hs := sentry_shrinks s false
  unfold extractBool
  split
  · rename_i s1 heq
    rw [heq] at hs
    exact hs.1
  · rename_i s1 heq
    rw [heq] at hs
    have := (num_get_shrinks LONG_MIN LONG_MAX s1).1
    have := hs.1
    simp only at this ⊢
    split
    · simp only; omega
    · split <;> (simp only; omega)

theorem ignore_shrinks (s : IStream) : (ignore s).buf.length ≤ s.buf.length := by
  have hs := sentry_shrinks s true
  unfold ignore
  split
  · rename_i s1 heq
    rw [heq] at hs
    exact hs.1
  · rename_i s1 heq
    rw [heq] at hs
    have := hs.1
    simp only at this
    split
    · simpa using this
    · rename_i hb
      rw [hb] at this
      simp only [List.length_cons] at this ⊢
      omega

theorem getline_shrinks (s : IStream) (old : String) :
    (getline s old).1.buf.length ≤ s.buf.length := by
  have hs := sentry_shrinks s true
  unfold getline
  split
  · rename_i s1 heq
    rw [heq] at hs
    exact hs.1
  · rename_i s1 heq
    rw [heq] at hs
    have h1 := hs.1
    have h2 := takeWhile_dropWhile_length (fun c => c != '\n') s1.buf
    simp only at h1 ⊢
    split
    · simp
    · rename_i hd
      rw [hd] at h2
      simp only [List.length_cons] at h2 ⊢
      omega

/-- The loop of `loadBooks` does not depend on its fuel once the fuel exceeds the number of
unread characters: the fuel `loadBooks` supplies is never used up. -/
theorem loadLoop_fuel : ∀ (fuel1 fuel2 : Nat) (file : IStream) (book : Book) (books : List Book),
    file.buf.length < fuel1 → file.buf.length < fuel2 →
    loadLoop fuel1 file book books = loadLoop fuel2 file book books := by
  intro fuel1
  induction fuel1 with
  | zero => intro fuel2 file book books h; omega
  | succ f1 ih =>
    intro fuel2 file book books h1 h2
    obtain ⟨f2, rfl⟩ : ∃ f2, fuel2 = f2 + 1 := ⟨fuel2 - 1, by omega⟩
    rw [loadLoop, loadLoop]
    simp only
    split
    · rfl
    · rename_i hfail
      have hfail2 : (extractInt file book.id).1.failbit = false := by simpa using hfail
      have e1 := extractInt_shrinks file book.id hfail2
      have e2 := ignore_shrinks (extractInt file book.id).1
      have e3 := getline_shrinks (ignore (extractInt file book.id).1) book.title
      have e4 := getline_shrinks (getline (ignore (extractInt file book.id).1) book.title).1
        book.author
      have e5 := extractBool_shrinks
        (getline (getline (ignore (extractInt file book.id).1) book.title).1 book.author).1
        book.isBorrowed
      apply ih <;> omega

/-! ## Remove -/

theorem remove_if_eq_filter (p : Book → Bool) (bs : List Book) :
    remove_if p bs = bs.filter (fun b => !p b) := by
  induction bs with
  | nil => rfl
  | cons b bs ih =>
    cases hp : p b <;> simp [remove_if, hp, ih]

theorem removeBook_books (L : Library) (bookId : Int) :
    (removeBook L bookId).books = L.books.filter (fun b => decide (b.id ≠ bookId)) := by
  simp only [removeBook, saveBooks, remove_if_eq_filter]
  congr 1
  funext b
  by_cases h : b.id = bookId <;> simp [h]

theorem removeBook_file (L : Library) (bookId : Int) :
    (removeBook L bookId).file = some (writeBooks (removeBook L bookId).books) := rfl

/-- C5. `removeBook` is a filter: the catalog afterwards is exactly the original records
whose id differs from the given one, in their order; no record with the id remains; and
`books.txt` is rewritten with the serialization of the result, match or no match. -/
theorem removeBook_is_filter (L : Library) (bookId : Int) :
    (removeBook L bookId).books = L.books.filter (fun b => decide (b.id ≠ bookId)) ∧
    (∀ b ∈ (removeBook L bookId).books, b.id ≠ bookId) ∧
    (removeBook L bookId).file = some (writeBooks (removeBook L bookId).books) ∧
    (removeBook L bookId).saves = L.saves + 1 ∧
    (removeBook L bookId).out = L.out := by
  refine ⟨removeBook_books L bookId, ?_, rfl, rfl, rfl⟩
  intro b hmem
  rw [removeBook_books] at hmem
  simpa using (List.mem_filter.1 hmem).2

/-- C10. Idempotent removal: a second `removeBook` with the same id leaves the catalog and
the contents of `books.txt` as the first one left them. -/
theorem removeBook_idempotent (L : Library) (bookId : Int) :
    (removeBook (removeBook L bookId) bookId).books = (removeBook L bookId).books ∧
    (removeBook (removeBook L bookId) bookId).file = (removeBook L bookId).file := by
  have h : (removeBook (removeBook L bookId) bookId).books = (removeBook L bookId).books := by
    rw [removeBook_books (removeBook L bookId) bookId, removeBook_books L bookId,
      List.filter_filter]
    congr 1
    funext b
    simp
  refine ⟨h, ?_⟩
  rw [removeBook_file (removeBook L bookId) bookId, removeBook_file L bookId, h]

/-! ## Borrow and return -/

theorem borrowLoop_some (bookId : Int) : ∀ bs : List Book,
    (∃ b ∈ bs, b.id = bookId ∧ b.isBorrowed = false) →
    ∃ pre b post, bs = pre ++ b :: post ∧
      (∀ x ∈ pre, ¬(x.id = bookId ∧ x.isBorrowed = false)) ∧
      b.id = bookId ∧ b.isBorrowed = false ∧
      borrowLoop bookId bs = some (pre ++ { b with isBorrowed := true } :: post) := by
  intro bs
  induction bs with
  | nil => rintro ⟨b, hb, _⟩; simp at hb
  | cons a rest ih =>
    intro hex
    by_cases ha : a.id = bookId ∧ a.isBorrowed = false
    · exact ⟨[], a, rest, rfl, by simp, ha.1, ha.2, by simp [borrowLoop, ha.1, ha.2]⟩
    · have hrest : ∃ b ∈ rest, b.id = bookId ∧ b.isBorrowed = false := by
        obtain ⟨b, hb, hb2⟩ := hex
        rcases List.mem_cons.1 hb with rfl | hb
        · exact absurd hb2 ha
        · exact ⟨b, hb, hb2⟩
      obtain ⟨pre, b, post, hsplit, hpre, hid, hflag, hloop⟩ := ih hrest
      refine ⟨a :: pre, b, post, by simp [hsplit], ?_, hid, hflag, ?_⟩
      · intro x hx
        rcases List.mem_cons.1 hx with rfl | hx
        · exact ha
        · exact hpre x hx
      · have hcond : (a.id == bookId && !a.isBorrowed) = false := by
          by_cases h1 : a.id = bookId
          · have : a.isBorrowed = true := by simpa [h1] using ha
            simp [this]
          · simp [h1]
        simp [borrowLoop, hcond, hloop]

theorem borrowLoop_none (bookId : Int) : ∀ bs : List Book,
    borrowLoop bookId bs = none ↔ ¬∃ b ∈ bs, b.id = bookId ∧ b.isBorrowed = false := by
  intro bs
  induction bs with
  | nil => simp [borrowLoop]
  | cons a rest ih =>
    by_cases ha : a.id = bookId ∧ a.isBorrowed = false
    · simp [borrowLoop, ha.1, ha.2]
    · have hcond : (a.id == bookId && !a.isBorrowed) = false := by
        by_cases h1 : a.id = bookId
        · have : a.isBorrowed = true := by simpa [h1] using ha
          simp [this]
        · simp [h1]
      simp only [borrowLoop, hcond, Bool.false_eq_true, if_false, Option.map_eq_none', ih]
      constructor
      · rintro h ⟨b, hb, hb2⟩
        rcases List.mem_cons.1 hb with rfl | hb
        · exact ha hb2
        · exact h ⟨b, hb, hb2⟩
      · rintro h ⟨b, hb, hb2⟩
        exact h ⟨b, List.mem_cons_of_mem _ hb, hb2⟩

theorem returnLoop_some (bookId : Int) : ∀ bs : List Book,
    (∃ b ∈ bs, b.id = bookId ∧ b.isBorrowed = true) →
    ∃ pre b post, bs = pre ++ b :: post ∧
      (∀ x ∈ pre, ¬(x.id = bookId ∧ x.isBorrowed = true)) ∧
      b.id = bookId ∧ b.isBorrowed = true ∧
      returnLoop bookId bs = some (pre ++ { b with isBorrowed := false } :: post) := by
  intro bs
  induction bs with
  | nil => rintro ⟨b, hb, _⟩; simp at hb
  | cons a rest ih =>
    intro hex
    by_cases ha : a.id = bookId ∧ a.isBorrowed = true
    · exact ⟨[], a, rest, rfl, by simp, ha.1, ha.2, by simp [returnLoop, ha.1, ha.2]⟩
    · have hrest : ∃ b ∈ rest, b.id = bookId ∧ b.isBorrowed = true := by
        obtain ⟨b, hb, hb2⟩ := hex
        rcases List.mem_cons.1 hb with rfl | hb
        · exact absurd hb2 ha
        · exact ⟨b, hb, hb2⟩
      obtain ⟨pre, b, post, hsplit, hpre, hid, hflag, hloop⟩ := ih hrest
      refine ⟨a :: pre, b, post, by simp [hsplit], ?_, hid, hflag, ?_⟩
      · intro x hx
        rcases List.mem_cons.1 hx with rfl | hx
        · exact ha
        · exact hpre x hx
      · have hcond : (a.id == bookId && a.isBorrowed) = false := by
          by_cases h1 : a.id = bookId
          · have : a.isBorrowed = false := by simpa [h1] using ha
            simp [this]
          · simp [h1]
        simp [returnLoop, hcond, hloop]

theorem returnLoop_none (bookId : Int) : ∀ bs : List Book,
    returnLoop bookId bs = none ↔ ¬∃ b ∈ bs, b.id = bookId ∧ b.isBorrowed = true := by
  intro bs
  induction bs with
  | nil => simp [returnLoop]
  | cons a rest ih =>
    by_cases ha : a.id = bookId ∧ a.isBorrowed = true
    · simp [returnLoop, ha.1, ha.2]
    · have hcond : (a.id == bookId && a.isBorrowed) = false := by
        by_cases h1 : a.id = bookId
        · have : a.isBorrowed = false := by simpa [h1] using ha
          simp [this]
        · simp [h1]
      simp only [returnLoop, hcond, Bool.false_eq_true, if_false, Option.map_eq_none', ih]
      constructor
      · rintro h ⟨b, hb, hb2⟩
        rcases List.mem_cons.1 hb with rfl | hb
        · exact ha hb2
        · exact h ⟨b, hb, hb2⟩
      · rintro h ⟨b, hb, hb2⟩
        exact h ⟨b, List.mem_cons_of_mem _ hb, hb2⟩

/-- C3. A successful borrow or return flips exactly one flag. If some record has the id and
is not borrowed, `borrowBook` sets the flag of the first such record and leaves every other
record, the order and the count as they were, then rewrites `books.txt` with the
serialization of the result; symmetrically for `returnBook` and a borrowed record. -/
theorem borrow_return_flip_one_flag (L : Library) (bookId : Int) :
    ((∃ b ∈ L.books, b.id = bookId ∧ b.isBorrowed = false) →
      ∃ pre b post, L.books = pre ++ b :: post ∧
        (∀ x ∈ pre, ¬(x.id = bookId ∧ x.isBorrowed = false)) ∧
        b.id = bookId ∧ b.isBorrowed = false ∧
        (borrowBook L bookId).books = pre ++ { b with isBorrowed := true } :: post ∧
        (borrowBook L bookId).file = some (writeBooks (borrowBook L bookId).books) ∧
        (borrowBook L bookId).saves = L.saves + 1 ∧
        (borrowBook L bookId).out = L.out) ∧
    ((∃ b ∈ L.books, b.id = bookId ∧ b.isBorrowed = true) →
      ∃ pre b post, L.books = pre ++ b :: post ∧
        (∀ x ∈ pre, ¬(x.id = bookId ∧ x.isBorrowed = true)) ∧
        b.id = bookId ∧ b.isBorrowed = true ∧
        (returnBook L bookId).books = pre ++ { b with isBorrowed := false } :: post ∧
        (returnBook L bookId).file = some (writeBooks (returnBook L bookId).books) ∧
        (returnBook L bookId).saves = L.saves + 1 ∧
        (returnBook L bookId).out = L.out) := by
  constructor
  · intro h
    obtain ⟨pre, b, post, hsplit, hpre, hid, hflag, hloop⟩ := borrowLoop_some bookId L.books h
    refine ⟨pre, b, post, hsplit, hpre, hid, hflag, ?_⟩
    simp [borrowBook, hloop, saveBooks]
  · intro h
    obtain ⟨pre, b, post, hsplit, hpre, hid, hflag, hloop⟩ := returnLoop_some bookId L.books h
    refine ⟨pre, b, post, hsplit, hpre, hid, hflag, ?_⟩
    simp [returnBook, hloop, saveBooks]

/-- Witness for C3: the scenario catalog, borrowed and then returned. -/
theorem borrow_return_flip_one_flag_witness :
    (∃ pre b post, [(⟨1, "A", "X", false⟩ : Book)] = pre ++ b :: post ∧
        (∀ x ∈ pre, ¬(x.id = 1 ∧ x.isBorrowed = false)) ∧
        b.id = 1 ∧ b.isBorrowed = false ∧
        (borrowBook ⟨[⟨1, "A", "X", false⟩], none, [], 0⟩ 1).books
          = pre ++ { b with isBorrowed := true } :: post ∧
        (borrowBook ⟨[⟨1, "A", "X", false⟩], none, [], 0⟩ 1).file
          = some (writeBooks (borrowBook ⟨[⟨1, "A", "X", false⟩], none, [], 0⟩ 1).books) ∧
        (borrowBook ⟨[⟨1, "A", "X", false⟩], none, [], 0⟩ 1).saves = 0 + 1 ∧
        (borrowBook ⟨[⟨1, "A", "X", false⟩], none, [], 0⟩ 1).out = []) ∧
    (∃ pre b post, [(⟨1, "A", "X", true⟩ : Book)] = pre ++ b :: post ∧
        (∀ x ∈ pre, ¬(x.id = 1 ∧ x.isBorrowed = true)) ∧
        b.id = 1 ∧ b.isBorrowed = true ∧
        (returnBook ⟨[⟨1, "A", "X", true⟩], none, [], 0⟩ 1).books
          = pre ++ { b with isBorrowed := false } :: post ∧
        (returnBook ⟨[⟨1, "A", "X", true⟩], none, [], 0⟩ 1).file
          = some (writeBooks (returnBook ⟨[⟨1, "A", "X", true⟩], none, [], 0⟩ 1).books) ∧
        (returnBook ⟨[⟨1, "A", "X", true⟩], none, [], 0⟩ 1).saves = 0 + 1 ∧
        (returnBook ⟨[⟨1, "A", "X", true⟩], none, [], 0⟩ 1).out = []) :=
  ⟨(borrow_return_flip_one_flag ⟨[⟨1, "A", "X", false⟩], none, [], 0⟩ 1).1
      ⟨⟨1, "A", "X", false⟩, by decide, by decide⟩,
   (borrow_return_flip_one_flag ⟨[⟨1, "A", "X", true⟩], none, [], 0⟩ 1).2
      ⟨⟨1, "A", "X", true⟩, by decide, by decide⟩⟩

/-- C4. Invalid transitions are rejected without mutation. `borrowBook` prints its
not-available notice exactly when no record has the id with the flag clear, `returnBook`
prints its notice exactly when no record has the id with the flag set, and a rejected call
changes nothing but the console: same catalog, same contents of `books.txt`, no rewrite. -/
theorem rejection_iff_and_no_mutation (L : Library) (bookId : Int) :
    ((borrowBook L bookId).out = L.out ++ ["Book not available for borrowing.\n"] ↔
      ¬∃ b ∈ L.books, b.id = bookId ∧ b.isBorrowed = false) ∧
    ((returnBook L bookId).out = L.out ++ ["Book not found or not borrowed.\n"] ↔
      ¬∃ b ∈ L.books, b.id = bookId ∧ b.isBorrowed = true) ∧
    ((¬∃ b ∈ L.books, b.id = bookId ∧ b.isBorrowed = false) →
      (borrowBook L bookId).books = L.books ∧ (borrowBook L bookId).file = L.file ∧
      (borrowBook L bookId).saves = L.saves) ∧
    ((¬∃ b ∈ L.books, b.id = bookId ∧ b.isBorrowed = true) →
      (returnBook L bookId).books = L.books ∧ (returnBook L bookId).file = L.file ∧
      (returnBook L bookId).saves = L.saves) := by
  refine ⟨?_, ?_, ?_, ?_⟩
  · rw [← borrowLoop_none]
    cases h : borrowLoop bookId L.books with
    | none => simp [borrowBook, h]
    | some bs => simp [borrowBook, h, saveBooks]
  · rw [← returnLoop_none]
    cases h : returnLoop bookId L.books with
    | none => simp [returnBook, h]
    | some bs => simp [returnBook, h, saveBooks]
  · intro h
    rw [← borrowLoop_none] at h
    simp [borrowBook, h]
  · intro h
    rw [← returnLoop_none] at h
    simp [returnBook, h]

/-- Witness for C4: borrowing the already borrowed record 1 and returning the record 2 that
was never borrowed. -/
theorem rejection_iff_and_no_mutation_witness :
    ((borrowBook ⟨[⟨1, "A", "X", true⟩, ⟨2, "B", "Y", false⟩], some ['x'], [], 3⟩ 1).books
        = [⟨1, "A", "X", true⟩, ⟨2, "B", "Y", false⟩] ∧
      (borrowBook ⟨[⟨1, "A", "X", true⟩, ⟨2, "B", "Y", false⟩], some ['x'], [], 3⟩ 1).file
        = some ['x'] ∧
      (borrowBook ⟨[⟨1, "A", "X", true⟩, ⟨2, "B", "Y", false⟩], some ['x'], [], 3⟩ 1).saves = 3) ∧
    ((returnBook ⟨[⟨1, "A", "X", true⟩, ⟨2, "B", "Y", false⟩], some ['x'], [], 3⟩ 2).books
        = [⟨1, "A", "X", true⟩, ⟨2, "B", "Y", false⟩] ∧
      (returnBook ⟨[⟨1, "A", "X", true⟩, ⟨2, "B", "Y", false⟩], some ['x'], [], 3⟩ 2).file
        = some ['x'] ∧
      (returnBook ⟨[⟨1, "A", "X", true⟩, ⟨2, "B", "Y", false⟩], some ['x'], [], 3⟩ 2).saves = 3) :=
  ⟨(rejection_iff_and_no_mutation
      ⟨[⟨1, "A", "X", true⟩, ⟨2, "B", "Y", false⟩], some ['x'], [], 3⟩ 1).2.2.1 (by decide),
   (rejection_iff_and_no_mutation
      ⟨[⟨1, "A", "X", true⟩, ⟨2, "B", "Y", false⟩], some ['x'], [], 3⟩ 2).2.2.2 (by decide)⟩

theorem map_unflag_of_not_mem (bookId : Int) : ∀ bs : List Book,
    bookId ∉ bs.map Book.id →
    bs.map (fun b => if b.id = bookId then { b with isBorrowed := false } else b) = bs := by
  intro bs
  induction bs with
  | nil => intro _; rfl
  | cons a rest ih =>
    intro h
    simp only [List.map_cons, List.mem_cons, not_or] at h
    have ha : ¬ a.id = bookId := fun e => h.1 e.symm
    simp [ha, ih h.2]

theorem loops_none_of_not_mem (bookId : Int) (bs : List Book) (h : bookId ∉ bs.map Book.id) :
    borrowLoop bookId bs = none ∧ returnLoop bookId bs = none := by
  constructor
  · rw [borrowLoop_none]
    rintro ⟨b, hb, hid, _⟩
    exact h (List.mem_map.2 ⟨b, hb, hid⟩)
  · rw [returnLoop_none]
    rintro ⟨b, hb, hid, _⟩
    exact h (List.mem_map.2 ⟨b, hb, hid⟩)

theorem return_after_borrow_loop (bookId : Int) : ∀ bs : List Book,
    (bs.map Book.id).Nodup → bookId ∈ bs.map Book.id →
    returnLoop bookId ((borrowLoop bookId bs).getD bs)
      = some (bs.map (fun b => if b.id = bookId then { b with isBorrowed := false } else b)) := by
  intro bs
  induction bs with
  | nil => intro _ h; simp at h
  | cons a rest ih =>
    intro hnd hmem
    simp only [List.map_cons, List.nodup_cons] at hnd
    by_cases ha : a.id = bookId
    · have hnot : bookId ∉ rest.map Book.id := ha ▸ hnd.1
      have hmap := map_unflag_of_not_mem bookId rest hnot
      have hnone := loops_none_of_not_mem bookId rest hnot
      cases hflag : a.isBorrowed with
      | false => simp [borrowLoop, returnLoop, ha, hflag, hmap]
      | true => simp [borrowLoop, returnLoop, ha, hflag, hmap, hnone.1]
    · have hmem2 : bookId ∈ rest.map Book.id := by
        simp only [List.map_cons, List.mem_cons] at hmem
        rcases hmem with h | h
        · exact absurd h.symm ha
        · exact h
      have := ih hnd.2 hmem2
      cases hb : borrowLoop bookId rest with
      | none =>
        rw [hb] at this
        simp only [Option.getD_none] at this
        simp [borrowLoop, returnLoop, ha, hb, this]
      | some bs2 =>
        rw [hb] at this
        simp only [Option.getD_some] at this
        simp [borrowLoop, returnLoop, ha, hb, this]

theorem borrowBook_books (L : Library) (bookId : Int) :
    (borrowBook L bookId).books = (borrowLoop bookId L.books).getD L.books := by
  cases h : borrowLoop bookId L.books <;> simp [borrowBook, h, saveBooks]

/-- C6. Borrow/return symmetry: in a catalog with pairwise distinct ids that holds the id,
`borrowBook` followed by `returnBook` leaves the record with that id not borrowed and every
other field of every record, the order and the count as before; when that record was not
borrowed at the start the final catalog is the initial one. -/
theorem borrow_then_return_symmetry (L : Library) (bookId : Int)
    (hnd : (L.books.map Book.id).Nodup) (hmem : bookId ∈ L.books.map Book.id) :
    (returnBook (borrowBook L bookId) bookId).books
      = L.books.map (fun b => if b.id = bookId then { b with isBorrowed := false } else b) ∧
    ((∀ b ∈ L.books, b.id = bookId → b.isBorrowed = false) →
      (returnBook (borrowBook L bookId) bookId).books = L.books) := by
  have h := return_after_borrow_loop bookId L.books hnd hmem
  rw [← borrowBook_books] at h
  have hb : (returnBook (borrowBook L bookId) bookId).books
      = L.books.map (fun b => if b.id = bookId then { b with isBorrowed := false } else b) := by
    simp [returnBook, h, saveBooks]
  refine ⟨hb, ?_⟩
  intro hall
  rw [hb]
  conv_rhs => rw [← List.map_id L.books]
  apply List.map_congr_left
  intro b hbm
  by_cases hid : b.id = bookId
  · have := hall b hbm hid
    simp only [hid, if_true, id]
    cases b
    simp_all
  · simp [hid]

/-- Witness for C6: a two-record catalog, record 2 borrowed and returned. -/
theorem borrow_then_return_symmetry_witness :
    (returnBook (borrowBook ⟨[⟨1, "A", "X", true⟩, ⟨2, "B", "Y", false⟩], none, [], 0⟩ 2) 2).books
      = [⟨1, "A", "X", true⟩, ⟨2, "B", "Y", false⟩] :=
  (borrow_then_return_symmetry ⟨[⟨1, "A", "X", true⟩, ⟨2, "B", "Y", false⟩], none, [], 0⟩ 2
    (by decide) (by decide)).2 (by decide)

/-! ## Add -/

theorem addLoop_ok : ∀ (items : List Json) (cands : List (String × String)) (books : List Book),
    List.Forall₂ (fun item c => candidateOf item = Except.ok c) items cands →
    addLoop items books = Except.ok (cands.foldl pushCandidate books) := by
  intro items cands books h
  induction h generalizing books with
  | nil => rfl
  | cons hc _ ih => simp [addLoop, hc, ih]

theorem addLoop_inv : ∀ (items : List Json) (books books1 : List Book),
    addLoop items books = Except.ok books1 →
    ∃ cands : List (String × String), books1 = cands.foldl pushCandidate books := by
  intro items
  induction items with
  | nil =>
    intro books books1 h
    refine ⟨[], ?_⟩
    simp only [addLoop, Except.ok.injEq] at h
    simp [h]
  | cons item rest ih =>
    intro books books1 h
    rw [addLoop] at h
    cases hc : candidateOf item with
    | error e => rw [hc] at h; simp at h
    | ok c =>
      rw [hc] at h
      obtain ⟨cands, hcands⟩ := ih _ _ h
      exact ⟨c :: cands, by simp [hcands]⟩

theorem foldl_push_append : ∀ (cands : List (String × String)) (books : List Book),
    ∃ fresh, cands.foldl pushCandidate books = books ++ fresh ∧
      fresh.length = cands.length ∧
      fresh.map (fun b => (b.title, b.author, b.isBorrowed))
        = cands.map (fun c => (c.1, c.2, false)) := by
  intro cands
  induction cands with
  | nil => intro books; exact ⟨[], by simp, rfl, rfl⟩
  | cons c cands ih =>
    intro books
    obtain ⟨fresh, h1, h2, h3⟩ := ih (pushCandidate books c)
    refine ⟨Book.create (nextId books) c.1 c.2 :: fresh, ?_, by simp [h2], ?_⟩
    · rw [List.foldl_cons, h1]; simp [pushCandidate]
    · simp [h3, Book.create]

theorem lastId_append_singleton (books : List Book) (b : Book) :
    lastId (books ++ [b]) = b.id := by
  simp [lastId]

theorem nextId_eq (books : List Book) (hlo : INT_MIN ≤ lastId books)
    (hhi : lastId books + 1 ≤ INT_MAX) : nextId books = lastId books + 1 := by
  unfold nextId lastId at *
  cases h : books.getLast? with
  | none => simp
  | some last =>
    simp only [h] at hlo hhi ⊢
    unfold wrapInt
    unfold INT_MIN at hlo
    unfold INT_MAX at hhi
    omega

theorem foldl_push_ids : ∀ (cands : List (String × String)) (books : List Book),
    INT_MIN ≤ lastId books → lastId books + (cands.length : Int) ≤ INT_MAX →
    (cands.foldl pushCandidate books).map Book.id
      = books.map Book.id
        ++ (List.range cands.length).map (fun (k : Nat) => lastId books + ((k : Int) + 1)) := by
  intro cands
  induction cands with
  | nil => intro books _ _; simp
  | cons c cands ih =>
    intro books hlo hhi
    simp only [List.length_cons, Nat.cast_add, Nat.cast_one] at hhi
    have hnext := nextId_eq books hlo (by omega)
    have hlast : lastId (pushCandidate books c) = lastId books + 1 := by
      simp [pushCandidate, lastId_append_singleton, Book.create, hnext]
    have := ih (pushCandidate books c) (by rw [hlast]; omega) (by rw [hlast]; omega)
    rw [List.foldl_cons, this, hlast]
    simp only [pushCandidate, List.map_append, List.map_cons, List.map_nil, Book.create, hnext,
      List.length_cons, List.range_succ_eq_map, List.map_cons, List.map_map,
      List.append_assoc, List.singleton_append]
    congr 2
    simp
    intro a _
    ring

theorem addBookFromAPI_yields (L : Library) (bookData : Json) (cands : List (String × String))
    (h : SearchYields bookData cands) :
    addBookFromAPI L (Fetched.parsed bookData)
      = Except.ok (saveBooks { L with books := cands.foldl pushCandidate L.books }) := by
  obtain ⟨hnull, items, hitems, hall⟩ := h
  simp [addBookFromAPI, fetchBookData, hnull, hitems, addLoop_ok _ _ _ hall]

/-- C8. Add appends one fresh record per candidate: when the search yields the candidates
`cands`, `addBookFromAPI` returns with the original records as an unchanged prefix followed
by one record per candidate, in order, carrying that candidate's title and author and
`borrowed = false`, and `books.txt` holds the result; from the empty catalog the candidates
("T1","Au1"), ("T2","Au2") give exactly the records 1 and 2 of the scenario. -/
theorem add_appends_one_record_per_candidate (L : Library) (bookData : Json)
    (cands : List (String × String)) (h : SearchYields bookData cands) :
    ∃ L1 fresh, addBookFromAPI L (Fetched.parsed bookData) = Except.ok L1 ∧
      L1.books = L.books ++ fresh ∧ fresh.length = cands.length ∧
      fresh.map (fun b => (b.title, b.author, b.isBorrowed))
        = cands.map (fun c => (c.1, c.2, false)) ∧
      L1.file = some (writeBooks L1.books) ∧
      (L.books = [] → cands = [("T1", "Au1"), ("T2", "Au2")] →
        L1.books = [⟨1, "T1", "Au1", false⟩, ⟨2, "T2", "Au2", false⟩]) := by
  obtain ⟨fresh, h1, h2, h3⟩ := foldl_push_append cands L.books
  refine ⟨_, fresh, addBookFromAPI_yields L bookData cands h, ?_, h2, h3, rfl, ?_⟩
  · simpa [saveBooks] using h1
  · intro hL hc
    simp only [saveBooks, hL, hc]
    decide

/-- Witness for C8: the scenario of the specification, with a second author on the second
volume. -/
theorem add_appends_one_record_per_candidate_witness :
    ∃ L1 fresh,
      addBookFromAPI ⟨[], none, [], 0⟩
        (Fetched.parsed (searchResponse [volume "T1" ["Au1"], volume "T2" ["Au2", "Au3"]]))
        = Except.ok L1 ∧
      L1.books = [] ++ fresh ∧ fresh.length = 2 ∧
      fresh.map (fun b => (b.title, b.author, b.isBorrowed))
        = [("T1", "Au1", false), ("T2", "Au2", false)] ∧
      L1.file = some (writeBooks L1.books) ∧
      (([] : List Book) = [] →
        [("T1", "Au1"), ("T2", "Au2")] = [("T1", "Au1"), ("T2", "Au2")] →
        L1.books = [⟨1, "T1", "Au1", false⟩, ⟨2, "T2", "Au2", false⟩]) :=
  add_appends_one_record_per_candidate ⟨[], none, [], 0⟩
    (searchResponse [volume "T1" ["Au1"], volume "T2" ["Au2", "Au3"]])
    [("T1", "Au1"), ("T2", "Au2")]
    ⟨rfl, _, rfl, List.Forall₂.cons rfl (List.Forall₂.cons rfl List.Forall₂.nil)⟩

theorem le_lastId_of_sorted : ∀ books : List Book,
    (books.map Book.id).Sorted (fun a b => a ≤ b) → ∀ b ∈ books, b.id ≤ lastId books := by
  intro books
  induction books using List.reverseRecOn with
  | nil => intro _ b hb; simp at hb
  | append_singleton pre l _ =>
    intro hs b hb
    rw [lastId_append_singleton]
    simp only [List.map_append, List.map_cons, List.map_nil, List.Sorted,
      List.pairwise_append] at hs
    rcases List.mem_append.1 hb with hb | hb
    · exact hs.2.2 b.id (List.mem_map.2 ⟨b, hb, rfl⟩) l.id (by simp)
    · simp at hb; subst hb; exact le_refl _

theorem lastId_mem (books : List Book) (hne : books ≠ []) : ∃ b ∈ books, b.id = lastId books := by
  induction books using List.reverseRecOn with
  | nil => exact absurd rfl hne
  | append_singleton pre l _ => exact ⟨l, by simp, (lastId_append_singleton pre l).symm⟩

theorem maxId_spec : ∀ books : List Book, books ≠ [] →
    (∃ b ∈ books, b.id = maxId books) ∧ ∀ b ∈ books, b.id ≤ maxId books := by
  intro books
  induction books with
  | nil => intro h; exact absurd rfl h
  | cons a rest ih =>
    intro _
    cases rest with
    | nil => simp [maxId]
    | cons r rest2 =>
      obtain ⟨⟨m, hm, hmeq⟩, hle⟩ := ih (by simp)
      have hdef : maxId (a :: r :: rest2) = max a.id (maxId (r :: rest2)) := by
        simp [maxId]
      rw [hdef]
      constructor
      · rcases le_total a.id (maxId (r :: rest2)) with h | h
        · exact ⟨m, List.mem_cons_of_mem _ hm, by rw [hmeq, max_eq_right h]⟩
        · exact ⟨a, by simp, by rw [max_eq_left h]⟩
      · intro b hb
        rcases List.mem_cons.1 hb with rfl | hb
        · exact le_max_left _ _
        · exact le_trans (hle b hb) (le_max_right _ _)

theorem lastId_eq_maxId_of_sorted (books : List Book)
    (hs : (books.map Book.id).Sorted (fun a b => a ≤ b)) : lastId books = maxId books := by
  by_cases hne : books = []
  · subst hne; rfl
  · obtain ⟨⟨m, hm, hmeq⟩, hle⟩ := maxId_spec books hne
    obtain ⟨l, hl, hleq⟩ := lastId_mem books hne
    apply le_antisymm
    · rw [← hleq]; exact hle l hl
    · rw [← hmeq]; exact le_lastId_of_sorted books hs m hm

/-- C2, as amended. Ids on add follow the last record: when the search yields N candidates,
M is the id of the catalog's last record (0 for the empty catalog), M is an `int` and
M + N does not exceed the largest `int`, the k-th appended record has id M + k. M is the
maximum id whenever the ids are non-decreasing in catalog order. -/
theorem add_ids_follow_last_id (L : Library) (bookData : Json)
    (cands : List (String × String)) (h : SearchYields bookData cands)
    (hlo : INT_MIN ≤ lastId L.books) (hhi : lastId L.books + (cands.length : Int) ≤ INT_MAX) :
    ∃ L1, addBookFromAPI L (Fetched.parsed bookData) = Except.ok L1 ∧
      L1.books.take L.books.length = L.books ∧
      (L1.books.drop L.books.length).map Book.id
        = (List.range cands.length).map (fun (k : Nat) => lastId L.books + ((k : Int) + 1)) ∧
      ((L.books.map Book.id).Sorted (fun a b => a ≤ b) → lastId L.books = maxId L.books) := by
  obtain ⟨fresh, h1, _, _⟩ := foldl_push_append cands L.books
  have hids := foldl_push_ids cands L.books hlo hhi
  refine ⟨_, addBookFromAPI_yields L bookData cands h, ?_, ?_,
    lastId_eq_maxId_of_sorted L.books⟩
  · simp [saveBooks, h1]
  · simp only [saveBooks]
    rw [h1, List.map_append] at hids
    have := List.append_cancel_left hids
    rw [h1, List.drop_left]
    exact this

/-- Witness for C2 as amended: two candidates added to a catalog whose last id is 3. -/
theorem add_ids_follow_last_id_witness :
    ∃ L1,
      addBookFromAPI ⟨[⟨1, "A", "X", false⟩, ⟨3, "B", "Y", true⟩], none, [], 0⟩
        (Fetched.parsed (searchResponse [volume "T1" ["Au1"], volume "T2" ["Au2"]]))
        = Except.ok L1 ∧
      L1.books.take 2 = [⟨1, "A", "X", false⟩, ⟨3, "B", "Y", true⟩] ∧
      (L1.books.drop 2).map Book.id = [4, 5] ∧
      ((([⟨1, "A", "X", false⟩, ⟨3, "B", "Y", true⟩] : List Book).map Book.id).Sorted
          (fun a b => a ≤ b) →
        lastId [⟨1, "A", "X", false⟩, ⟨3, "B", "Y", true⟩]
          = maxId [⟨1, "A", "X", false⟩, ⟨3, "B", "Y", true⟩]) :=
  add_ids_follow_last_id ⟨[⟨1, "A", "X", false⟩, ⟨3, "B", "Y", true⟩], none, [], 0⟩
    (searchResponse [volume "T1" ["Au1"], volume "T2" ["Au2"]])
    [("T1", "Au1"), ("T2", "Au2")]
    ⟨rfl, _, rfl, List.Forall₂.cons rfl (List.Forall₂.cons rfl List.Forall₂.nil)⟩
    (by decide) (by decide)

/-- Counterexample for C2 as stated: `books.txt` lists the ids 5 and 3; the program starts,
and a search with one candidate appends a record with id 4, while the maximum id is 5. -/
theorem add_id_is_not_max_plus_one :
    (Library.create (some "5\nA\nX\n0\n3\nB\nY\n0\n".data)).books
        = [⟨5, "A", "X", false⟩, ⟨3, "B", "Y", false⟩] ∧
    maxId (Library.create (some "5\nA\nX\n0\n3\nB\nY\n0\n".data)).books = 5 ∧
    (addBookFromAPI (Library.create (some "5\nA\nX\n0\n3\nB\nY\n0\n".data))
        (Fetched.parsed (searchResponse [volume "T1" ["Au1"]]))).map Library.books
      = Except.ok [⟨5, "A", "X", false⟩, ⟨3, "B", "Y", false⟩, ⟨4, "T1", "Au1", false⟩] ∧
    (4 : Int) ≠ maxId (Library.create (some "5\nA\nX\n0\n3\nB\nY\n0\n".data)).books + 1 := by
  refine ⟨by decide, by decide, rfl, by decide⟩

/-- C9. What `addBookFromAPI` does when the search fails. A failed transfer prints
"No books found." and changes nothing else. A body that is not JSON makes `json::parse`
throw, and the exception leaves `addBookFromAPI`: the operation does not return normally
and prints nothing. A JSON body of another kind (an array, say) ends in a `type_error`
the same way, and a JSON object without `items` is saved as an empty batch, without the
notice. -/
theorem add_search_failure_paths (L : Library) :
    addBookFromAPI L Fetched.transferFailed
      = Except.ok { L with out := L.out ++ ["No books found.\n"] } ∧
    addBookFromAPI L Fetched.unparsable = Except.error Abort.parse_error ∧
    addBookFromAPI L (Fetched.parsed (Json.array [])) = Except.error Abort.type_error ∧
    addBookFromAPI L (Fetched.parsed (Json.object [("totalItems", Json.number 0)]))
      = Except.ok (saveBooks L) :=
  ⟨rfl, rfl, rfl, rfl⟩

/-! ## The id invariant -/

theorem idInvariant_iff (books : List Book) :
    IdInvariant books ↔ (books.map Book.id).Pairwise (fun a b => a < b) := by
  unfold IdInvariant List.Nodup List.Sorted
  rw [← List.pairwise_and_iff]
  constructor <;> intro h <;> refine h.imp ?_
  · intro a b hab; exact lt_of_le_of_ne hab.2 hab.1
  · intro a b hab; exact ⟨ne_of_lt hab, le_of_lt hab⟩

theorem borrowLoop_ids (bookId : Int) : ∀ (bs bs1 : List Book),
    borrowLoop bookId bs = some bs1 → bs1.map Book.id = bs.map Book.id := by
  intro bs
  induction bs with
  | nil => intro bs1 h; simp [borrowLoop] at h
  | cons a rest ih =>
    intro bs1 h
    rw [borrowLoop] at h
    split at h
    · simp only [Option.some.injEq] at h; subst h; simp
    · cases hr : borrowLoop bookId rest with
      | none => rw [hr] at h; simp at h
      | some r1 =>
        rw [hr] at h
        simp only [Option.map_some', Option.some.injEq] at h
        subst h
        simp [ih r1 hr]

theorem returnLoop_ids (bookId : Int) : ∀ (bs bs1 : List Book),
    returnLoop bookId bs = some bs1 → bs1.map Book.id = bs.map Book.id := by
  intro bs
  induction bs with
  | nil => intro bs1 h; simp [returnLoop] at h
  | cons a rest ih =>
    intro bs1 h
    rw [returnLoop] at h
    split at h
    · simp only [Option.some.injEq] at h; subst h; simp
    · cases hr : returnLoop bookId rest with
      | none => rw [hr] at h; simp at h
      | some r1 =>
        rw [hr] at h
        simp only [Option.map_some', Option.some.injEq] at h
        subst h
        simp [ih r1 hr]

theorem borrowBook_ids (L : Library) (bookId : Int) :
    (borrowBook L bookId).books.map Book.id = L.books.map Book.id := by
  cases h : borrowLoop bookId L.books with
  | none => simp [borrowBook, h]
  | some bs => simpa [borrowBook, h, saveBooks] using borrowLoop_ids bookId _ _ h

theorem returnBook_ids (L : Library) (bookId : Int) :
    (returnBook L bookId).books.map Book.id = L.books.map Book.id := by
  cases h : returnLoop bookId L.books with
  | none => simp [returnBook, h]
  | some bs => simpa [returnBook, h, saveBooks] using returnLoop_ids bookId _ _ h

theorem removeBook_ids_sublist (L : Library) (bookId : Int) :
    ((removeBook L bookId).books.map Book.id).Sublist (L.books.map Book.id) := by
  rw [removeBook_books]
  exact (List.filter_sublist _).map _

theorem addBookFromAPI_inv (L L1 : Library) (response : Fetched)
    (h : addBookFromAPI L response = Except.ok L1) :
    ∃ cands : List (String × String), L1.books = cands.foldl pushCandidate L.books ∧
      L1.books.length - L.books.length = cands.length := by
  have key : ∃ cands : List (String × String), L1.books = cands.foldl pushCandidate L.books := by
    unfold addBookFromAPI at h
    cases hf : fetchBookData response with
    | error e => rw [hf] at h; simp at h
    | ok bookData =>
      rw [hf] at h
      simp only at h
      split at h
      · cases hs : bookData.subscript "items" with
        | error e => rw [hs] at h; simp at h
        | ok items =>
          rw [hs] at h
          simp only at h
          cases hl : addLoop items.range L.books with
          | error e => rw [hl] at h; simp at h
          | ok books =>
            rw [hl] at h
            simp only [Except.ok.injEq] at h
            obtain ⟨cands, hc⟩ := addLoop_inv _ _ _ hl
            exact ⟨cands, by rw [← h, ← hc]; rfl⟩
      · simp only [Except.ok.injEq] at h
        exact ⟨[], by rw [← h]; rfl⟩
  obtain ⟨cands, hc⟩ := key
  refine ⟨cands, hc, ?_⟩
  obtain ⟨fresh, h1, h2, _⟩ := foldl_push_append cands L.books
  rw [hc, h1, List.length_append, h2]
  omega

theorem push_keeps_increasing (books : List Book) (cands : List (String × String))
    (hinc : (books.map Book.id).Pairwise (fun a b => a < b))
    (hlo : INT_MIN ≤ lastId books) (hhi : lastId books + (cands.length : Int) ≤ INT_MAX) :
    ((cands.foldl pushCandidate books).map Book.id).Pairwise (fun a b => a < b) ∧
    ∀ b ∈ cands.foldl pushCandidate books, b ∈ books ∨
      (lastId books + 1 ≤ b.id ∧ b.id ≤ lastId books + (cands.length : Int)) := by
  have hids := foldl_push_ids cands books hlo hhi
  obtain ⟨fresh, h1, _, _⟩ := foldl_push_append cands books
  have hfresh : fresh.map Book.id
      = (List.range cands.length).map (fun (k : Nat) => lastId books + ((k : Int) + 1)) := by
    rw [h1, List.map_append] at hids
    exact List.append_cancel_left hids
  have hsorted : (books.map Book.id).Sorted (fun a b => a ≤ b) :=
    hinc.imp (fun h => le_of_lt h)
  constructor
  · rw [hids, List.pairwise_append]
    refine ⟨hinc, ?_, ?_⟩
    · refine List.Pairwise.map _ ?_ (List.pairwise_lt_range cands.length)
      intro a b hab
      have : (a : Int) < b := by exact_mod_cast hab
      omega
    · intro a ha b hb
      obtain ⟨x, hx, rfl⟩ := List.mem_map.1 ha
      obtain ⟨k, _, rfl⟩ := List.mem_map.1 hb
      have := le_lastId_of_sorted books hsorted x hx
      omega
  · intro b hb
    rw [h1] at hb
    rcases List.mem_append.1 hb with hb | hb
    · exact Or.inl hb
    · right
      have : b.id ∈ fresh.map Book.id := List.mem_map.2 ⟨b, hb, rfl⟩
      rw [hfresh] at this
      obtain ⟨k, hk, hkeq⟩ := List.mem_map.1 this
      have hk2 : k < cands.length := List.mem_range.1 hk
      have : (k : Int) < cands.length := by exact_mod_cast hk2
      constructor <;> omega

theorem lastId_bounds (books : List Book) (lo : Int) (hlo : lo ≤ 0)
    (h : ∀ b ∈ books, lo ≤ b.id) : lo ≤ lastId books := by
  by_cases hne : books = []
  · subst hne; exact hlo
  · obtain ⟨l, hl, hleq⟩ := lastId_mem books hne
    rw [← hleq]; exact h l hl

theorem mem_of_ids_sublist {bs1 bs : List Book} (P : Int → Prop)
    (hsub : (bs1.map Book.id).Sublist (bs.map Book.id)) (h : ∀ b ∈ bs, P b.id) :
    ∀ b ∈ bs1, P b.id := by
  intro b hb
  have : b.id ∈ bs.map Book.id := hsub.subset (List.mem_map.2 ⟨b, hb, rfl⟩)
  obtain ⟨x, hx, hxe⟩ := List.mem_map.1 this
  rw [← hxe]; exact h x hx

theorem reachable_increasing_positive (L : Library) (h : Reachable L) :
    (L.books.map Book.id).Pairwise (fun a b => a < b) ∧
    ∀ b ∈ L.books, 1 ≤ b.id ∧ b.id ≤ INT_MAX := by
  induction h with
  | start L h0 => rw [h0]; simp
  | add L L1 response _ hadd hguard ih =>
    obtain ⟨cands, hc, hlen⟩ := addBookFromAPI_inv L L1 response hadd
    rw [hlen] at hguard
    have h0 : (0 : Int) ≤ lastId L.books :=
      lastId_bounds L.books 0 (le_refl _) (fun b hb => by have := (ih.2 b hb).1; omega)
    have hlo : INT_MIN ≤ lastId L.books := by unfold INT_MIN; omega
    obtain ⟨hp, hm⟩ := push_keeps_increasing L.books cands ih.1 hlo hguard
    rw [hc]
    refine ⟨hp, ?_⟩
    intro b hb
    rcases hm b hb with hold | hnew
    · exact ih.2 b hold
    · constructor <;> omega
  | remove L bookId _ ih =>
    have hsub := removeBook_ids_sublist L bookId
    exact ⟨ih.1.sublist hsub,
      mem_of_ids_sublist (fun i => 1 ≤ i ∧ i ≤ INT_MAX) hsub ih.2⟩
  | borrow L bookId _ ih =>
    have hids := borrowBook_ids L bookId
    refine ⟨by rw [hids]; exact ih.1, ?_⟩
    exact mem_of_ids_sublist (fun i => 1 ≤ i ∧ i ≤ INT_MAX) (by rw [hids]) ih.2
  | giveBack L bookId _ ih =>
    have hids := returnBook_ids L bookId
    refine ⟨by rw [hids]; exact ih.1, ?_⟩
    exact mem_of_ids_sublist (fun i => 1 ≤ i ∧ i ≤ INT_MAX) (by rw [hids]) ih.2

/-- C7, as amended. The id invariant is preserved by every operation that does not overflow.
If a catalog's ids are `int` values, pairwise distinct and non-decreasing in catalog order,
then so are the ids after `removeBook`, `borrowBook` or `returnBook` with any id, and after
any `addBookFromAPI` that returns, provided the last id plus the number of appended records
does not exceed the largest `int`. Consequently every catalog reachable from the empty one
by these operations, with every add within that bound, has unique, ordered, positive ids. -/
theorem id_invariant_preserved :
    (∀ L : Library, IdInvariant L.books → IdsInRange L.books →
      (∀ response L1, addBookFromAPI L response = Except.ok L1 →
        lastId L.books + ((L1.books.length - L.books.length : Nat) : Int) ≤ INT_MAX →
        IdInvariant L1.books) ∧
      (∀ bookId, IdInvariant (removeBook L bookId).books) ∧
      (∀ bookId, IdInvariant (borrowBook L bookId).books) ∧
      (∀ bookId, IdInvariant (returnBook L bookId).books)) ∧
    (∀ L : Library, Reachable L → IdInvariant L.books ∧ ∀ b ∈ L.books, 0 < b.id) := by
  constructor
  · intro L hinv hrange
    rw [idInvariant_iff] at hinv
    refine ⟨?_, ?_, ?_, ?_⟩
    · intro response L1 hadd hguard
      obtain ⟨cands, hc, hlen⟩ := addBookFromAPI_inv L L1 response hadd
      rw [hlen] at hguard
      have hlo : INT_MIN ≤ lastId L.books :=
        lastId_bounds L.books INT_MIN (by decide) (fun b hb => (hrange b hb).1)
      rw [idInvariant_iff, hc]
      exact (push_keeps_increasing L.books cands hinv hlo hguard).1
    · intro bookId
      rw [idInvariant_iff]
      exact hinv.sublist (removeBook_ids_sublist L bookId)
    · intro bookId
      rw [idInvariant_iff, borrowBook_ids]
      exact hinv
    · intro bookId
      rw [idInvariant_iff, returnBook_ids]
      exact hinv
  · intro L hr
    obtain ⟨hp, hm⟩ := reachable_increasing_positive L hr
    refine ⟨(idInvariant_iff L.books).2 hp, ?_⟩
    intro b hb
    have := (hm b hb).1
    omega

/-- Witness for C7 as amended: one add to a catalog with ids 1 and 3, and the catalog
reached from the empty one by an add of two candidates and a removal. -/
theorem id_invariant_preserved_witness :
    IdInvariant
      [⟨1, "A", "X", false⟩, ⟨3, "B", "Y", true⟩, ⟨4, "T1", "Au1", false⟩] ∧
    (IdInvariant
        (removeBook (saveBooks ⟨[⟨1, "T1", "Au1", false⟩, ⟨2, "T2", "Au2", false⟩],
          none, [], 0⟩) 1).books ∧
      ∀ b ∈ (removeBook (saveBooks ⟨[⟨1, "T1", "Au1", false⟩, ⟨2, "T2", "Au2", false⟩],
          none, [], 0⟩) 1).books, 0 < b.id) :=
  ⟨(id_invariant_preserved.1 ⟨[⟨1, "A", "X", false⟩, ⟨3, "B", "Y", true⟩], none, [], 0⟩
      (by decide) (by decide)).1
      (Fetched.parsed (searchResponse [volume "T1" ["Au1"]]))
      (saveBooks ⟨[⟨1, "A", "X", false⟩, ⟨3, "B", "Y", true⟩, ⟨4, "T1", "Au1", false⟩],
        none, [], 0⟩)
      rfl (by decide),
   id_invariant_preserved.2 _
    (Reachable.remove _ 1
      (Reachable.add ⟨[], none, [], 0⟩ _
        (Fetched.parsed (searchResponse [volume "T1" ["Au1"], volume "T2" ["Au2"]]))
        (Reachable.start _ rfl) rfl (by decide)))⟩

/-- Counterexample for C7 as stated: the catalog holds one record with id 2147483646, below
the largest `int`; an add of two candidates gives the ids 2147483646, 2147483647,
-2147483648, which are not in non-decreasing order. -/
theorem id_invariant_broken_by_overflow :
    IdInvariant [(⟨2147483646, "A", "X", false⟩ : Book)] ∧
    lastId [(⟨2147483646, "A", "X", false⟩ : Book)] < INT_MAX ∧
    (addBookFromAPI ⟨[⟨2147483646, "A", "X", false⟩], none, [], 0⟩
        (Fetched.parsed (searchResponse [volume "T1" ["Au1"], volume "T2" ["Au2"]]))).map
        Library.books
      = Except.ok [⟨2147483646, "A", "X", false⟩, ⟨2147483647, "T1", "Au1", false⟩,
          ⟨-2147483648, "T2", "Au2", false⟩] ∧
    ¬ IdInvariant [(⟨2147483646, "A", "X", false⟩ : Book), ⟨2147483647, "T1", "Au1", false⟩,
          ⟨-2147483648, "T2", "Au2", false⟩] := by
  refine ⟨by decide, by decide, rfl, by decide⟩

end LibraryManagement
